import Mathlib

/-!
Verification of the geometric reconstruction engine of `redact_extract.py`
(repository `unredact`).  Coordinates are embedded as rationals (`ℚ`); the
Python floats carry exact decimal values in every behaviour the claims
exercise, so exact rational arithmetic is the faithful shallow embedding.

The file first embeds the data model and the functions of the source, then
states and proves the claims.
-/

namespace Unredact

/-- An axis-aligned rectangle `(x0, y0, x1, y1)`, the coordinate tuples the
source passes around for word bounding boxes and redaction boxes. -/
structure Rect where
  x0 : ℚ
  y0 : ℚ
  x1 : ℚ
  y1 : ℚ
deriving DecidableEq, Repr

/-- The word's own area, `(x1 - x0) * (y1 - y0)` as the source computes it
(`word_area` in `word_overlaps_box`). -/
def word_area (word_bbox : Rect) : ℚ :=
  (word_bbox.x1 - word_bbox.x0) * (word_bbox.y1 - word_bbox.y0)

/-- The intersection area `(ix1 - ix0) * (iy1 - iy0)` of the source, where
`ix0 = max(wx0, bx0)`, `iy0 = max(wy0, by0)`, `ix1 = min(wx1, bx1)`,
`iy1 = min(wy1, by1)`. -/
def intersection_area (w b : Rect) : ℚ :=
  (min w.x1 b.x1 - max w.x0 b.x0) * (min w.y1 b.y1 - max w.y0 b.y0)

/-- The source's early-out test `ix0 >= ix1 or iy0 >= iy1`: the clamped
intersection is empty. -/
def inter_empty (w b : Rect) : Prop :=
  max w.x0 b.x0 ≥ min w.x1 b.x1 ∨ max w.y0 b.y0 ≥ min w.y1 b.y1

instance (w b : Rect) : Decidable (inter_empty w b) := by
  unfold inter_empty; infer_instance

/-- Embedding of `word_overlaps_box` (src/redact_extract.py lines 138-170):
intersect the word box with the redaction box, return `false` when the
intersection is empty or the word area is nonpositive, else compare
`intersection_area / word_area` with the threshold. -/
def word_overlaps_box (word_bbox box : Rect) (overlap_threshold : ℚ) : Bool :=
  if inter_empty word_bbox box then false
  else if word_area word_bbox ≤ 0 then false
  else decide (intersection_area word_bbox box / word_area word_bbox ≥ overlap_threshold)

/-- The spec's `overlapRatio(word, box)` (§4.1): intersection area divided by
the word's own area, `0` when the rectangles do not overlap or the word area
is `≤ 0`.  The intersection arithmetic is the same as in
`word_overlaps_box`; this definition only exposes the ratio rather than the
thresholded Boolean. -/
def overlap_ratio (word_bbox box : Rect) : ℚ :=
  if inter_empty word_bbox box then 0
  else if word_area word_bbox ≤ 0 then 0
  else intersection_area word_bbox box / word_area word_bbox

/-- The ratio is never negative. -/
theorem overlap_ratio_nonneg (w b : Rect) : 0 ≤ overlap_ratio w b := by
  unfold overlap_ratio
  split_ifs with h1 h2
  · exact le_refl (0 : ℚ)
  · exact le_refl (0 : ℚ)
  · unfold inter_empty at h1
    push_neg at h1 h2
    obtain ⟨hx, hy⟩ := h1
    have hia : 0 ≤ intersection_area w b := by
      unfold intersection_area
      have hx' : (0 : ℚ) ≤ min w.x1 b.x1 - max w.x0 b.x0 := by linarith
      have hy' : (0 : ℚ) ≤ min w.y1 b.y1 - max w.y0 b.y0 := by linarith
      positivity
    exact div_nonneg hia (le_of_lt h2)

/-- The Boolean of the source agrees with thresholding the spec's ratio, for
every positive threshold. -/
theorem word_overlaps_box_iff_ratio (w b : Rect) (t : ℚ) (ht : 0 < t) :
    word_overlaps_box w b t = true ↔ overlap_ratio w b ≥ t := by
  unfold word_overlaps_box overlap_ratio
  split_ifs with h1 h2
  · constructor
    · intro h; exact absurd h (by simp)
    · intro h; exact absurd (lt_of_lt_of_le ht h) (by simp)
  · constructor
    · intro h; exact absurd h (by simp)
    · intro h; exact absurd (lt_of_lt_of_le ht h) (by simp)
  · simp only [ge_iff_le, decide_eq_true_eq]

/-- Growing the redaction box (in every direction) can only increase the
overlap ratio against a fixed word box. -/
theorem overlap_ratio_mono (w b b' : Rect)
    (hx0 : b'.x0 ≤ b.x0) (hy0 : b'.y0 ≤ b.y0)
    (hx1 : b.x1 ≤ b'.x1) (hy1 : b.y1 ≤ b'.y1) :
    overlap_ratio w b ≤ overlap_ratio w b' := by
  by_cases hE : inter_empty w b
  · rw [overlap_ratio, if_pos hE]
    exact overlap_ratio_nonneg w b'
  · by_cases hA : word_area w ≤ 0
    · rw [overlap_ratio, if_neg hE, if_pos hA]
      exact overlap_ratio_nonneg w b'
    · unfold inter_empty at hE
      push_neg at hE hA
      obtain ⟨hx, hy⟩ := hE
      have hminx : min w.x1 b.x1 ≤ min w.x1 b'.x1 := min_le_min (le_refl _) hx1
      have hmaxx : max w.x0 b'.x0 ≤ max w.x0 b.x0 := max_le_max (le_refl _) hx0
      have hminy : min w.y1 b.y1 ≤ min w.y1 b'.y1 := min_le_min (le_refl _) hy1
      have hmaxy : max w.y0 b'.y0 ≤ max w.y0 b.y0 := max_le_max (le_refl _) hy0
      have hE' : ¬ inter_empty w b' := by
        unfold inter_empty
        push_neg
        constructor
        · calc max w.x0 b'.x0 ≤ max w.x0 b.x0 := hmaxx
            _ < min w.x1 b.x1 := hx
            _ ≤ min w.x1 b'.x1 := hminx
        · calc max w.y0 b'.y0 ≤ max w.y0 b.y0 := hmaxy
            _ < min w.y1 b.y1 := hy
            _ ≤ min w.y1 b'.y1 := hminy
      rw [overlap_ratio, if_neg (by unfold inter_empty; push_neg; exact ⟨hx, hy⟩),
        if_neg (not_le.mpr hA), overlap_ratio, if_neg hE', if_neg (not_le.mpr hA)]
      have hinter : intersection_area w b ≤ intersection_area w b' := by
        unfold intersection_area
        have h1 : (0 : ℚ) ≤ min w.x1 b.x1 - max w.x0 b.x0 := by linarith
        have h2 : (0 : ℚ) ≤ min w.y1 b.y1 - max w.y0 b.y0 := by linarith
        have h3 : min w.x1 b.x1 - max w.x0 b.x0 ≤ min w.x1 b'.x1 - max w.x0 b'.x0 := by
          linarith
        have h4 : min w.y1 b.y1 - max w.y0 b.y0 ≤ min w.y1 b'.y1 - max w.y0 b'.y0 := by
          linarith
        exact mul_le_mul h3 h4 h2 (by linarith)
      exact (div_le_div_iff_of_pos_right hA).mpr hinter

/-- A word with positive extent in both axes that lies fully inside the box
has overlap ratio exactly `1`. -/
theorem overlap_ratio_inside (w b : Rect)
    (hwx : w.x0 < w.x1) (hwy : w.y0 < w.y1)
    (hx0 : b.x0 ≤ w.x0) (hy0 : b.y0 ≤ w.y0)
    (hx1 : w.x1 ≤ b.x1) (hy1 : w.y1 ≤ b.y1) :
    overlap_ratio w b = 1 := by
  have hminx : min w.x1 b.x1 = w.x1 := min_eq_left hx1
  have hmaxx : max w.x0 b.x0 = w.x0 := max_eq_left hx0
  have hminy : min w.y1 b.y1 = w.y1 := min_eq_left hy1
  have hmaxy : max w.y0 b.y0 = w.y0 := max_eq_left hy0
  have hE : ¬ inter_empty w b := by
    unfold inter_empty
    push_neg
    rw [hminx, hmaxx, hminy, hmaxy]
    exact ⟨hwx, hwy⟩
  have hA : 0 < word_area w := by
    unfold word_area
    have h1 : (0 : ℚ) < w.x1 - w.x0 := by linarith
    have h2 : (0 : ℚ) < w.y1 - w.y0 := by linarith
    positivity
  rw [overlap_ratio, if_neg hE, if_neg (not_le.mpr hA)]
  rw [intersection_area, hminx, hmaxx, hminy, hmaxy]
  exact div_self (ne_of_gt hA)

/-- Disjoint rectangles (separated along some axis) yield ratio exactly `0`,
and the source's Boolean test is `false` at every threshold. -/
theorem overlap_ratio_disjoint (w b : Rect) (t : ℚ)
    (h : w.x1 ≤ b.x0 ∨ b.x1 ≤ w.x0 ∨ w.y1 ≤ b.y0 ∨ b.y1 ≤ w.y0) :
    overlap_ratio w b = 0 ∧ word_overlaps_box w b t = false := by
  have hE : inter_empty w b := by
    unfold inter_empty
    rcases h with h | h | h | h
    · exact Or.inl (le_trans (min_le_left _ _) (le_trans h (le_max_right _ _)))
    · exact Or.inl (le_trans (min_le_right _ _) (le_trans h (le_max_left _ _)))
    · exact Or.inr (le_trans (min_le_left _ _) (le_trans h (le_max_right _ _)))
    · exact Or.inr (le_trans (min_le_right _ _) (le_trans h (le_max_left _ _)))
  constructor
  · rw [overlap_ratio, if_pos hE]
  · rw [word_overlaps_box, if_pos hE]

/-! ## The page data model

`detect_redaction_boxes` reads each page's annotation list and drawing list
(PyMuPDF view); `compute_redaction_stats` and the line reconstruction read
each page's word list (pdfplumber view).  A fill colour is embedded as a
list of rationals: an RGB-like sequence keeps its components, a grayscale
scalar `v` is the one-element list `[v]` (the source compares a scalar fill
only against `0`, `(0,)` and `[0]`, which the embedding renders as `[0]`). -/

/-- One page annotation: its type code (`annot.type[0]`; `12` is the Redact
annotation type) and its rectangle. -/
structure Annot where
  typeCode : ℤ
  rect : Rect
deriving DecidableEq, Repr

/-- One drawing primitive from `page.get_drawings()`: an optional fill
colour and an optional bounding rectangle. -/
structure Drawing where
  fill : Option (List ℚ)
  rect : Option Rect
deriving DecidableEq, Repr

/-- A page as PyMuPDF presents it to `detect_redaction_boxes`. -/
structure FitzPage where
  annots : List Annot
  drawings : List Drawing
deriving DecidableEq, Repr

/-- One extracted word from `page.extract_words(...)`: text, bounding box
`(x0, top, x1, bottom)`, optional declared size and optional font name. -/
structure Token where
  text : String
  x0 : ℚ
  top : ℚ
  x1 : ℚ
  bottom : ℚ
  size : Option ℚ
  fontname : Option String
deriving DecidableEq, Repr

/-- The word's bounding box tuple as `compute_redaction_stats` builds it. -/
def wordBBox (w : Token) : Rect :=
  Rect.mk w.x0 w.top w.x1 w.bottom

/-- A page as pdfplumber presents it: its extracted words in order. -/
structure PlumberPage where
  words : List Token
deriving DecidableEq, Repr

/-! ## RedactionBoxDetector (`detect_redaction_boxes`, lines 99-132) -/

/-- The size filter of the source: `width > 10 and height > 5`. -/
def sizeOk (r : Rect) : Prop :=
  r.x1 - r.x0 > 10 ∧ r.y1 - r.y0 > 5

instance (r : Rect) : Decidable (sizeOk r) := by
  unfold sizeOk; infer_instance

/-- The annotation loop body: a Redact-typed annotation (`type[0] == 12`)
appends its rectangle to `page_boxes`. -/
def detectStepAnnot (acc : List Rect) (a : Annot) : List Rect :=
  if a.typeCode = 12 then acc ++ [a.rect] else acc

/-- The drawing loop body: an RGB-like fill (length `≥ 3`) is accepted when
all of its first three channels are `< 0.1`; otherwise a fill equal to the
grayscale black `[0]` is accepted; an accepted fill appends the drawing's
rectangle when it is present and passes the size filter. -/
def detectStepDrawing (acc : List Rect) (d : Drawing) : List Rect :=
  match d.fill with
  | none => acc
  | some fill =>
    if fill.length ≥ 3 then
      if (fill.take 3).all (fun c => decide (c < 1/10)) then
        match d.rect with
        | some r => if sizeOk r then acc ++ [r] else acc
        | none => acc
      else acc
    else if fill = [0] then
      match d.rect with
      | some r => if sizeOk r then acc ++ [r] else acc
      | none => acc
    else acc

/-- Per-page body of `detect_redaction_boxes`: walk the annotations, then
the drawings, accumulating `page_boxes`. -/
def detect_redaction_boxes_page (p : FitzPage) : List Rect :=
  p.drawings.foldl detectStepDrawing (p.annots.foldl detectStepAnnot [])

/-- All pages of the document (`all_boxes` in the source). -/
def detect_redaction_boxes (pages : List FitzPage) : List (List Rect) :=
  pages.map detect_redaction_boxes_page

/-- The darkness test of the claim, as a predicate on a fill colour: an
RGB-like triple with its first three channels `< 0.1`, or the grayscale
value `0`. -/
def darkFill (fill : List ℚ) : Prop :=
  (fill.length ≥ 3 ∧ ∀ c ∈ fill.take 3, c < 1/10) ∨ fill = [0]

/-- The rectangle a single drawing contributes, if any: its rectangle when
its fill is dark and the rectangle is present and large enough. -/
def drawingBox (d : Drawing) : Option Rect :=
  match d.fill with
  | none => none
  | some fill =>
    if (fill.length ≥ 3 ∧ ∀ c ∈ fill.take 3, c < 1/10) ∨ (fill.length < 3 ∧ fill = [0]) then
      match d.rect with
      | some r => if sizeOk r then some r else none
      | none => none
    else none

instance (fill : List ℚ) : Decidable (darkFill fill) := by
  unfold darkFill; infer_instance

theorem detectStepAnnot_append (acc : List Rect) (a : Annot) :
    detectStepAnnot acc a = acc ++ (if a.typeCode = 12 then [a.rect] else []) := by
  unfold detectStepAnnot
  split_ifs <;> simp

theorem detectStepDrawing_append (acc : List Rect) (d : Drawing) :
    detectStepDrawing acc d = acc ++ (drawingBox d).toList := by
  unfold detectStepDrawing drawingBox
  rcases d with ⟨fill, rect⟩
  rcases fill with _ | fill
  · simp
  · simp only
    by_cases h3 : fill.length ≥ 3
    · rw [if_pos h3]
      by_cases hdark : (fill.take 3).all (fun c => decide (c < 1/10)) = true
      · rw [if_pos hdark]
        have hd : (fill.length ≥ 3 ∧ ∀ c ∈ fill.take 3, c < 1/10) ∨
            (fill.length < 3 ∧ fill = [0]) := by
          left
          refine ⟨h3, ?_⟩
          intro c hc
          have := List.all_eq_true.mp hdark c hc
          exact of_decide_eq_true this
        rw [if_pos hd]
        rcases rect with _ | r
        · simp
        · simp only [Option.toList]
          split_ifs <;> simp
      · rw [if_neg hdark]
        have hd : ¬ ((fill.length ≥ 3 ∧ ∀ c ∈ fill.take 3, c < 1/10) ∨
            (fill.length < 3 ∧ fill = [0])) := by
          rintro (⟨-, hall⟩ | ⟨hlt, -⟩)
          · exact hdark (List.all_eq_true.mpr fun c hc => decide_eq_true (hall c hc))
          · omega
        rw [if_neg hd]
        simp
    · rw [if_neg h3]
      by_cases h0 : fill = [0]
      · rw [if_pos h0]
        have hd : (fill.length ≥ 3 ∧ ∀ c ∈ fill.take 3, c < 1/10) ∨
            (fill.length < 3 ∧ fill = [0]) := Or.inr ⟨by omega, h0⟩
        rw [if_pos hd]
        rcases rect with _ | r
        · simp
        · simp only [Option.toList]
          split_ifs <;> simp
      · rw [if_neg h0]
        have hd : ¬ ((fill.length ≥ 3 ∧ ∀ c ∈ fill.take 3, c < 1/10) ∨
            (fill.length < 3 ∧ fill = [0])) := by
          rintro (⟨hge, -⟩ | ⟨-, h⟩)
          · omega
          · exact h0 h
        rw [if_neg hd]
        simp

/-- Folding an append-only step is an append of the collected pieces. -/
theorem foldl_append_step {α : Type} (f : α → Option Rect)
    (step : List Rect → α → List Rect)
    (hstep : ∀ acc a, step acc a = acc ++ (f a).toList) :
    ∀ (xs : List α) (acc : List Rect),
      xs.foldl step acc = acc ++ xs.filterMap f := by
  intro xs
  induction xs with
  | nil => intro acc; simp
  | cons x xs ih =>
    intro acc
    rw [List.foldl_cons, hstep, ih, List.filterMap_cons]
    rcases h : f x with _ | r <;> simp [h, Option.toList]

/-- The detector emits exactly: every Redact-annotation rectangle, then the
rectangle of every drawing with a dark fill and a present, large-enough
rectangle. -/
theorem detect_redaction_boxes_page_eq (p : FitzPage) :
    detect_redaction_boxes_page p =
      (p.annots.filter (fun a => a.typeCode = 12)).map Annot.rect
        ++ p.drawings.filterMap drawingBox := by
  unfold detect_redaction_boxes_page
  have h1 : p.annots.foldl detectStepAnnot [] =
      [] ++ p.annots.filterMap
        (fun a => if a.typeCode = 12 then some a.rect else none) := by
    refine foldl_append_step (fun a : Annot => if a.typeCode = 12 then some a.rect else none)
      detectStepAnnot ?_ p.annots []
    intro acc a
    rw [detectStepAnnot_append]
    split_ifs with h <;> simp [h, Option.toList]
  have h2 := foldl_append_step drawingBox detectStepDrawing detectStepDrawing_append
    p.drawings (p.annots.foldl detectStepAnnot [])
  rw [h2, h1]
  congr 1
  simp only [List.nil_append]
  induction p.annots with
  | nil => simp
  | cons a as ih =>
    rw [List.filterMap_cons, List.filter_cons]
    by_cases h : a.typeCode = 12
    · simp only [h, if_pos rfl, decide_eq_true_eq]
      simp [h, ih]
    · simp [h, ih]

/-! ## LineClusterer (`group_words_into_lines`, lines 232-262)

Python's `sorted` is a stable sort; a stable insertion sort over the same
key order is its extensional equal.  The walk keeps the current cluster and
its running-average top (`current_top`); after appending a token the source
recomputes `current_top = (current_top * (len(current) - 1) + top) / len(current)`,
i.e. with `n` tokens before the append the new centroid is
`(centroid * n + top) / (n + 1)`. -/

/-- Stable insertion of one element under a Boolean `≤`-style order. -/
def insertBy {α : Type} (le : α → α → Bool) (x : α) : List α → List α
  | [] => [x]
  | y :: ys => if le x y then x :: y :: ys else y :: insertBy le x ys

/-- Stable insertion sort (extensionally, Python's stable `sorted`). -/
def sortBy {α : Type} (le : α → α → Bool) : List α → List α
  | [] => []
  | x :: xs => insertBy le x (sortBy le xs)

/-- The clustering key `(top, x0)`, ascending lexicographically. -/
def topThenX0 (a b : Token) : Bool :=
  decide (a.top < b.top ∨ (a.top = b.top ∧ a.x0 ≤ b.x0))

/-- The walk of `group_words_into_lines` after the first token has opened the
current cluster: a token within `line_tol` of the running centroid joins and
updates the centroid to the incremental mean; otherwise the cluster closes
and the token opens a new one. -/
def groupGo (line_tol : ℚ) (current : List Token) (current_top : ℚ) :
    List Token → List (List Token)
  | [] => [current]
  | w :: ws =>
    if |w.top - current_top| ≤ line_tol then
      groupGo line_tol (current ++ [w])
        ((current_top * current.length + w.top) / (current.length + 1)) ws
    else
      current :: groupGo line_tol [w] w.top ws

/-- Embedding of `group_words_into_lines`: sort by `(top, x0)` and walk. -/
def group_words_into_lines (words : List Token) (line_tol : ℚ) :
    List (List Token) :=
  match sortBy topThenX0 words with
  | [] => []
  | w :: ws => groupGo line_tol [w] w.top ws

/-- Mean of the `top` coordinates of a cluster. -/
def meanTops (cur : List Token) : ℚ :=
  (cur.map Token.top).sum / cur.length

/-- The incremental update of the source computes exactly the mean of the
extended cluster. -/
theorem meanTops_update (cur : List Token) (w : Token) (hne : cur ≠ []) :
    (meanTops cur * cur.length + w.top) / (cur.length + 1)
      = meanTops (cur ++ [w]) := by
  unfold meanTops
  have hlen : (cur.length : ℚ) ≠ 0 := by
    have : cur.length ≠ 0 := fun h => hne (List.length_eq_zero.mp h)
    exact_mod_cast this
  rw [List.map_append, List.sum_append, List.length_append]
  simp only [List.map_cons, List.map_nil, List.sum_cons, List.sum_nil, add_zero,
    List.length_cons, List.length_nil, zero_add]
  rw [div_mul_cancel₀ _ hlen]
  push_cast
  ring_nf

/-! ## Font name mapping (`map_font_to_pymudf`, lines 11-44) -/

/-- `pat` is a prefix of `hay`, over character lists. -/
def isPrefixOfChars : List Char → List Char → Bool
  | [], _ => true
  | _ :: _, [] => false
  | c :: cs, d :: ds => c == d && isPrefixOfChars cs ds

/-- Python's substring test `pat in hay`, over character lists. -/
def containsChars : List Char → List Char → Bool
  | [], pat => pat.isEmpty
  | hay@(_ :: tl), pat => isPrefixOfChars pat hay || containsChars tl pat

/-- Python's `pat in s` on strings. -/
def strContains (s pat : String) : Bool :=
  containsChars s.data pat.data

/-- Python's `s.lower()` over the characters of the string (the font names
the source handles are ASCII). -/
def lowerString (s : String) : String :=
  String.mk (s.data.map Char.toLower)

/-- Embedding of `map_font_to_pymudf`: lower-case the name, then walk the
`if`/`elif` chain of family keywords (helvetica, times, courier, symbol,
zapf/dingbat) with nested style checks.  Note that the helvetica and courier
branches test only the keyword `oblique` while the times branch tests only
`italic`, exactly as the source does. -/
def map_font_to_pymudf (font0 : String) : String :=
  let font := lowerString font0
  if strContains font "helvetica" then
    if strContains font "bold" then
      if strContains font "oblique" then "helvetica-boldoblique" else "helvetica-bold"
    else if strContains font "oblique" then "helvetica-oblique"
    else "helvetica"
  else if strContains font "times" then
    if strContains font "bold" then
      if strContains font "italic" then "times-bolditalic" else "times-bold"
    else if strContains font "italic" then "times-italic"
    else "times-roman"
  else if strContains font "courier" then
    if strContains font "bold" then
      if strContains font "oblique" then "courier-boldoblique" else "courier-bold"
    else if strContains font "oblique" then "courier-oblique"
    else "courier"
  else if strContains font "symbol" then "symbol"
  else if strContains font "zapf" || strContains font "dingbat" then "zapfdingbats"
  else "helvetica"

/-! ## LineReconstructor (`build_line_text`, lines 265-358)

The published source contains, right after the clamp
`font_size = max(6.0, min(12.0, font_size))` (line 318), a stray
mis-indented fragment (lines 319-321) that duplicates the pre-clamp
fallback computation; it makes the Python module fail to parse
(`IndentationError`), so `build_line_text` as published can never run.
The embedding below models the coherent surrounding code — everything up to
and including the clamp on line 318, and the loop from line 324 on — and
omits the stray fragment. -/

/-- The `x0`-ascending sort key of `build_line_text`. -/
def byX0 (a b : Token) : Bool :=
  decide (a.x0 ≤ b.x0)

/-- The size-collection loop: declared sizes kept when within `[4, 72]`. -/
def collectSizes : List Token → List ℚ
  | [] => []
  | w :: ws =>
    match w.size with
    | some s => if 4 ≤ s ∧ s ≤ 72 then s :: collectSizes ws else collectSizes ws
    | none => collectSizes ws

/-- The fallback heights: each token's `max(6.0, bottom - top)`, kept when
`≤ 72`. -/
def collectHeights : List Token → List ℚ
  | [] => []
  | w :: ws =>
    if max 6 (w.bottom - w.top) ≤ 72
    then max 6 (w.bottom - w.top) :: collectHeights ws
    else collectHeights ws

/-- Python's `sorted(xs)[len(xs) // 2]` (upper median), `0` on `[]`. -/
def median (xs : List ℚ) : ℚ :=
  (sortBy (fun a b => decide (a ≤ b)) xs).getD (xs.length / 2) 0

/-- The font-size estimate of `build_line_text`: the median declared size
when any survives the `[4, 72]` filter, else the median clamped height
(`10.0` when none remain), finally clamped into `[6, 12]` (line 318). -/
def font_size_est (line_words : List Token) : ℚ :=
  let sizes := collectSizes line_words
  let fs :=
    if sizes ≠ [] then median sizes
    else
      let hs := collectHeights line_words
      if hs ≠ [] then median hs else 10
  max 6 (min 12 fs)

/-- The font-name tally: an ordered association list mirroring a Python
dict built by `fontnames[f] += 1` / `fontnames[f] = 1`. -/
def tallyAdd (f : String) : List (String × ℕ) → List (String × ℕ)
  | [] => [(f, 1)]
  | (g, n) :: rest => if g = f then (g, n + 1) :: rest else (g, n) :: tallyAdd f rest

/-- One step of the tally loop (only run when `match_font`). -/
def fontTallyStep (match_font : Bool) (acc : List (String × ℕ)) (w : Token) :
    List (String × ℕ) :=
  if match_font then
    match w.fontname with
    | some f => tallyAdd f acc
    | none => acc
  else acc

/-- The tally loop over the line's tokens, in word order. -/
def collectFontnames (match_font : Bool) (line_words : List Token) :
    List (String × ℕ) :=
  line_words.foldl (fontTallyStep match_font) []

/-- `max(fontnames, key=fontnames.get)`: first key of maximal count, in
insertion order. -/
def modeGo (best : String) (bestCount : ℕ) : List (String × ℕ) → String
  | [] => best
  | (g, m) :: rest => if m > bestCount then modeGo g m rest else modeGo best bestCount rest

/-- The mode of the tally, `none` on an empty tally. -/
def modeFont : List (String × ℕ) → Option String
  | [] => none
  | (f, n) :: rest => some (modeGo f n rest)

/-- The line's font name: `"helvetica"` unless `match_font` is set and the
tally is non-empty, in which case the most frequent name is mapped. -/
def line_font_name (match_font : Bool) (line_words : List Token) : String :=
  let fontnames := collectFontnames match_font line_words
  if fontnames ≠ [] ∧ match_font then
    match modeFont fontnames with
    | some f => map_font_to_pymudf (lowerString f)
    | none => "helvetica"
  else "helvetica"

/-- Python 3's `round` on an exact value: round half to even. -/
def pyRound (q : ℚ) : ℤ :=
  if q - ⌊q⌋ < 1/2 then ⌊q⌋
  else if q - ⌊q⌋ > 1/2 then ⌊q⌋ + 1
  else if ⌊q⌋ % 2 = 0 then ⌊q⌋ else ⌊q⌋ + 1

/-- The number of spaces inserted for a positive gap:
`max(min_spaces, int(round(gap / max(0.5, space_unit_pts))))`. -/
def n_spaces_for (space_unit_pts : ℚ) (min_spaces : ℕ) (gap : ℚ) : ℕ :=
  (max (min_spaces : ℤ) (pyRound (gap / max (1/2) space_unit_pts))).toNat

/-- The separator string the loop appends before the next token: the
quantized run of spaces when the gap is positive, one space for a shallow
overlap (`gap > -space_unit_pts * 0.3`), nothing otherwise. -/
def gapSep (space_unit_pts : ℚ) (min_spaces : ℕ) (gap : ℚ) : String :=
  if gap > 0 then
    String.mk (List.replicate (n_spaces_for space_unit_pts min_spaces gap) ' ')
  else if gap > -space_unit_pts * (3/10) then " " else ""

/-- The assembly loop of `build_line_text` over the tokens after the first:
state is the accumulated string, the running maximum `prev_x1` used for
gaps, and the running maximum `last_x1` reported as the line's right edge
(the source keeps both, updated identically). -/
def assembleGo (space_unit_pts : ℚ) (min_spaces : ℕ) :
    String → ℚ → ℚ → List Token → String × ℚ
  | acc, _, last_x1, [] => (acc, last_x1)
  | acc, prev_x1, last_x1, w :: ws =>
    assembleGo space_unit_pts min_spaces
      (acc ++ gapSep space_unit_pts min_spaces (w.x0 - prev_x1) ++ w.text)
      (max prev_x1 w.x1) (max last_x1 w.x1) ws

/-- Median `top` of the line: `sorted(tops)[len(line_words) // 2]`. -/
def top_median (line_words : List Token) : ℚ :=
  (sortBy (fun a b => decide (a ≤ b)) (line_words.map Token.top)).getD
    (line_words.length / 2) 0

/-- Embedding of `build_line_text` (minus the stray fragment, see above):
sort by `x0`, estimate font size and name, compute the median top, then run
the assembly loop seeded with the first token.  Returns
`(text, x0, x1, top, font_size, font_name)`; `none` on an empty line (the
source would fault on `line_words[0]`, and is only called on non-empty
clusters). -/
def build_line_text (line_words : List Token)
    (space_unit_pts : ℚ) (min_spaces : ℕ) (match_font : Bool) :
    Option (String × ℚ × ℚ × ℚ × ℚ × String) :=
  match sortBy byX0 line_words with
  | [] => none
  | w0 :: rest =>
    let sorted_words := w0 :: rest
    let font_size := font_size_est sorted_words
    let font_name := line_font_name match_font sorted_words
    let top_med := top_median sorted_words
    let first_x0 := w0.x0
    let result := assembleGo space_unit_pts min_spaces w0.text w0.x1 w0.x1 rest
    some (result.1, first_x0, result.2, top_med, font_size, font_name)

/-! ## StatsAggregator (`compute_redaction_stats`, lines 173-229) -/

/-- The aggregate record the source returns. -/
structure RedactionStats where
  redaction_boxes_found : ℕ
  words_under_redactions : ℕ
  chars_under_redactions : ℕ
  total_words_extracted : ℕ
  total_chars_extracted : ℕ
  recovery_rate : ℚ
deriving DecidableEq, Repr

/-- The running counters of the word loop. -/
structure StatsAcc where
  total_words : ℕ
  total_chars : ℕ
  words_under : ℕ
  chars_under : ℕ
deriving DecidableEq, Repr

/-- The inner `for box in page_boxes: ... break` walk: `true` as soon as one
box passes `word_overlaps_box` at the default threshold `0.5`. -/
def anyBoxCovers (word_bbox : Rect) : List Rect → Bool
  | [] => false
  | b :: bs =>
    if word_overlaps_box word_bbox b (1/2) then true else anyBoxCovers word_bbox bs

/-- Python's `not text.strip()`: every character of the text is whitespace
(so the stripped text is empty). -/
def isBlankText (s : String) : Bool :=
  s.data.all Char.isWhitespace

/-- One word of the statistics loop: a word whose stripped text is empty is
skipped; otherwise the totals grow, and when some box covers the word the
covered counters grow once (the `break` of the source). -/
def statStep (page_boxes : List Rect) (acc : StatsAcc) (w : Token) : StatsAcc :=
  if isBlankText w.text then acc
  else
    if anyBoxCovers (wordBBox w) page_boxes then
      StatsAcc.mk (acc.total_words + 1) (acc.total_chars + w.text.length)
        (acc.words_under + 1) (acc.chars_under + w.text.length)
    else
      StatsAcc.mk (acc.total_words + 1) (acc.total_chars + w.text.length)
        acc.words_under acc.chars_under

/-- One page of the statistics loop. -/
def pageFold (page_boxes : List Rect) (acc : StatsAcc) (p : PlumberPage) : StatsAcc :=
  p.words.foldl (statStep page_boxes) acc

/-- The page walk: page `i` uses `redaction_boxes[i]` when it exists and
`[]` otherwise (`page_idx < len(redaction_boxes)` in the source). -/
def docFold (boxes : List (List Rect)) (acc : StatsAcc) :
    List PlumberPage → StatsAcc
  | [] => acc
  | p :: ps =>
    match boxes with
    | [] => docFold [] (pageFold [] acc p) ps
    | bs :: rest => docFold rest (pageFold bs acc p) ps

/-- A document as the two libraries view it: the PyMuPDF pages feeding the
detector and the pdfplumber pages feeding the word loop. -/
structure Doc where
  fitzPages : List FitzPage
  plumberPages : List PlumberPage
deriving DecidableEq, Repr

/-- Embedding of `compute_redaction_stats`: detect the per-page boxes, sum
their count, walk every page's words, and divide at the end —
`recovery_rate = chars_under / total_chars * 100` when `total_chars > 0`,
else `0.0`. -/
def compute_redaction_stats (doc : Doc) : RedactionStats :=
  let redaction_boxes := detect_redaction_boxes doc.fitzPages
  let total_boxes := (redaction_boxes.map List.length).sum
  let acc := docFold redaction_boxes (StatsAcc.mk 0 0 0 0) doc.plumberPages
  let recovery_rate : ℚ :=
    if acc.total_chars > 0 then (acc.chars_under : ℚ) / (acc.total_chars : ℚ) * 100 else 0
  RedactionStats.mk total_boxes acc.words_under acc.chars_under
    acc.total_words acc.total_chars recovery_rate

/-! ## Supporting lemmas for the claims -/

/-- A word of nonpositive area passes no overlap test. -/
theorem word_overlaps_box_of_area_nonpos (w b : Rect) (t : ℚ)
    (h : word_area w ≤ 0) : word_overlaps_box w b t = false := by
  unfold word_overlaps_box
  split_ifs with h1
  · rfl
  · rfl

/-- The short-circuiting box walk finds a box exactly when some box of the
list passes the ratio test. -/
theorem anyBoxCovers_iff (w : Rect) (boxes : List Rect) :
    anyBoxCovers w boxes = true ↔ ∃ b ∈ boxes, overlap_ratio w b ≥ 1/2 := by
  induction boxes with
  | nil => simp [anyBoxCovers]
  | cons b bs ih =>
    unfold anyBoxCovers
    by_cases h : word_overlaps_box w b (1/2) = true
    · simp only [h, if_true, true_iff]
      exact ⟨b, List.mem_cons_self b bs,
        (word_overlaps_box_iff_ratio w b (1/2) (by norm_num)).mp h⟩
    · have h' : word_overlaps_box w b (1/2) = false := by
        cases hh : word_overlaps_box w b (1/2)
        · rfl
        · exact absurd hh h
      rw [h', if_neg (by simp)]
      rw [ih]
      constructor
      · rintro ⟨c, hc, hr⟩
        exact ⟨c, List.mem_cons_of_mem b hc, hr⟩
      · rintro ⟨c, hc, hr⟩
        rcases List.mem_cons.mp hc with rfl | hc'
        · exact absurd ((word_overlaps_box_iff_ratio w c (1/2) (by norm_num)).mpr hr) h
        · exact ⟨c, hc', hr⟩

/-- A word of nonpositive area is covered by no box of any list. -/
theorem anyBoxCovers_of_area_nonpos (w : Rect) (boxes : List Rect)
    (h : word_area w ≤ 0) : anyBoxCovers w boxes = false := by
  induction boxes with
  | nil => rfl
  | cons b bs ih =>
    unfold anyBoxCovers
    rw [word_overlaps_box_of_area_nonpos w b _ h, if_neg (by simp), ih]

/-- A non-blank word's contribution to each counter, read off `statStep`:
the totals always grow by one word and its length, the covered counters
grow by the same exactly when some box covers the word — hence at most
once. -/
theorem statStep_counters (page_boxes : List Rect) (acc : StatsAcc) (w : Token)
    (h : ¬ isBlankText w.text = true) :
    statStep page_boxes acc w = StatsAcc.mk
      (acc.total_words + 1) (acc.total_chars + w.text.length)
      (acc.words_under + (if anyBoxCovers (wordBBox w) page_boxes then 1 else 0))
      (acc.chars_under + (if anyBoxCovers (wordBBox w) page_boxes then w.text.length else 0)) := by
  unfold statStep
  rw [if_neg h]
  split_ifs with hc
  · rfl
  · simp

/-- A blank word leaves the counters unchanged. -/
theorem statStep_blank (page_boxes : List Rect) (acc : StatsAcc) (w : Token)
    (h : isBlankText w.text = true) : statStep page_boxes acc w = acc := by
  unfold statStep
  rw [if_pos h]

/-! ## The claims -/

/-- **C1.** For every token bounding box and every list of page redaction
boxes: (1) the source's Boolean `word_overlaps_box` holds iff the spec's
overlap ratio (intersection area over the token's own area) is at least the
threshold, for every positive threshold — `0.5` being the default used by
the statistics walk; (2) the short-circuiting walk classifies the token as
covered iff at least one box passes at `0.5`; (3) the per-word step adds
the token's word count and character count to the covered totals exactly
once when covered and never otherwise, however many boxes cover it; (4) a
token of nonpositive area is never classified as covered. -/
theorem claim_C1 (wt : Token) (b : Rect) (page_boxes : List Rect)
    (acc : StatsAcc) (t : ℚ) (ht : 0 < t) (hblank : ¬ isBlankText wt.text = true) :
    (word_overlaps_box (wordBBox wt) b t = true ↔ overlap_ratio (wordBBox wt) b ≥ t)
    ∧ (anyBoxCovers (wordBBox wt) page_boxes = true
        ↔ ∃ bx ∈ page_boxes, overlap_ratio (wordBBox wt) bx ≥ 1/2)
    ∧ statStep page_boxes acc wt = StatsAcc.mk
        (acc.total_words + 1) (acc.total_chars + wt.text.length)
        (acc.words_under + (if anyBoxCovers (wordBBox wt) page_boxes then 1 else 0))
        (acc.chars_under + (if anyBoxCovers (wordBBox wt) page_boxes then wt.text.length else 0))
    ∧ (word_area (wordBBox wt) ≤ 0 → anyBoxCovers (wordBBox wt) page_boxes = false) :=
  ⟨word_overlaps_box_iff_ratio (wordBBox wt) b t ht,
   anyBoxCovers_iff (wordBBox wt) page_boxes,
   statStep_counters page_boxes acc wt hblank,
   fun h => anyBoxCovers_of_area_nonpos (wordBBox wt) page_boxes h⟩

/-- Witness for C1: a degenerate-bbox word `"hi"` against a unit box. -/
theorem claim_C1_witness :
    (word_overlaps_box (wordBBox (Token.mk "hi" 0 0 0 0 none none)) (Rect.mk 0 0 1 1) (1/2) = true
      ↔ overlap_ratio (wordBBox (Token.mk "hi" 0 0 0 0 none none)) (Rect.mk 0 0 1 1) ≥ 1/2)
    ∧ (anyBoxCovers (wordBBox (Token.mk "hi" 0 0 0 0 none none)) [Rect.mk 0 0 1 1] = true
        ↔ ∃ bx ∈ [Rect.mk 0 0 1 1],
            overlap_ratio (wordBBox (Token.mk "hi" 0 0 0 0 none none)) bx ≥ 1/2)
    ∧ statStep [Rect.mk 0 0 1 1] (StatsAcc.mk 0 0 0 0) (Token.mk "hi" 0 0 0 0 none none)
        = StatsAcc.mk (0 + 1) (0 + ("hi" : String).length)
            (0 + (if anyBoxCovers (wordBBox (Token.mk "hi" 0 0 0 0 none none))
                      [Rect.mk 0 0 1 1] then 1 else 0))
            (0 + (if anyBoxCovers (wordBBox (Token.mk "hi" 0 0 0 0 none none))
                      [Rect.mk 0 0 1 1] then ("hi" : String).length else 0))
    ∧ (word_area (wordBBox (Token.mk "hi" 0 0 0 0 none none)) ≤ 0 →
        anyBoxCovers (wordBBox (Token.mk "hi" 0 0 0 0 none none)) [Rect.mk 0 0 1 1] = false) :=
  claim_C1 (Token.mk "hi" 0 0 0 0 none none) (Rect.mk 0 0 1 1) [Rect.mk 0 0 1 1]
    (StatsAcc.mk 0 0 0 0) (1/2) (by norm_num) (by decide)

/-- **C2.** The recovery rate is `chars_under / total_chars * 100` whenever
any character was extracted, and exactly `0` when none was: a document with
zero extracted characters yields the defined value `0`, never a division
error (division is total here, and the `0` branch is taken explicitly). -/
theorem claim_C2 (doc : Doc) :
    ((compute_redaction_stats doc).total_chars_extracted > 0 →
      (compute_redaction_stats doc).recovery_rate
        = ((compute_redaction_stats doc).chars_under_redactions : ℚ)
            / ((compute_redaction_stats doc).total_chars_extracted : ℚ) * 100)
    ∧ ((compute_redaction_stats doc).total_chars_extracted = 0 →
      (compute_redaction_stats doc).recovery_rate = 0) := by
  unfold compute_redaction_stats
  constructor
  · intro h
    simp only at h ⊢
    rw [if_pos h]
  · intro h
    simp only at h ⊢
    rw [if_neg (by omega)]

/-- Witness for C2: a one-word covered document (rate `100`) and an empty
document (rate `0`). -/
theorem claim_C2_witness :
    ((compute_redaction_stats (Doc.mk
        [FitzPage.mk [] [Drawing.mk (some [0, 0, 0]) (some (Rect.mk 100 100 200 120))]]
        [PlumberPage.mk [Token.mk "hello" 110 102 190 118 none none]])).total_chars_extracted > 0 →
      (compute_redaction_stats (Doc.mk
        [FitzPage.mk [] [Drawing.mk (some [0, 0, 0]) (some (Rect.mk 100 100 200 120))]]
        [PlumberPage.mk [Token.mk "hello" 110 102 190 118 none none]])).recovery_rate
        = ((compute_redaction_stats (Doc.mk
            [FitzPage.mk [] [Drawing.mk (some [0, 0, 0]) (some (Rect.mk 100 100 200 120))]]
            [PlumberPage.mk [Token.mk "hello" 110 102 190 118 none none]])).chars_under_redactions : ℚ)
            / ((compute_redaction_stats (Doc.mk
            [FitzPage.mk [] [Drawing.mk (some [0, 0, 0]) (some (Rect.mk 100 100 200 120))]]
            [PlumberPage.mk [Token.mk "hello" 110 102 190 118 none none]])).total_chars_extracted : ℚ) * 100)
    ∧ ((compute_redaction_stats (Doc.mk [] [])).total_chars_extracted = 0 →
      (compute_redaction_stats (Doc.mk [] [])).recovery_rate = 0) :=
  ⟨(claim_C2 (Doc.mk
      [FitzPage.mk [] [Drawing.mk (some [0, 0, 0]) (some (Rect.mk 100 100 200 120))]]
      [PlumberPage.mk [Token.mk "hello" 110 102 190 118 none none]])).1,
   (claim_C2 (Doc.mk [] [])).2⟩

/-- **C3.** The font-size estimate of a line is the median of the declared
sizes surviving the `[4, 72]` filter when any exists, else the median of
the heights clamped below at `6` and filtered to `≤ 72` (`10` when none
remain), and in every case the result is clamped into `[6, 12]`; a median
at or above `12` is clamped down to exactly `12`.  This is the behaviour of
the coherent code around line 318 of the source; the published file itself
cannot run it, because lines 319-321 are a stray mis-indented duplicate of
the fallback computation that makes the module fail to parse. -/
theorem claim_C3 (line_words : List Token) :
    (collectSizes line_words ≠ [] →
      font_size_est line_words = max 6 (min 12 (median (collectSizes line_words))))
    ∧ (collectSizes line_words = [] → collectHeights line_words ≠ [] →
      font_size_est line_words = max 6 (min 12 (median (collectHeights line_words))))
    ∧ (collectSizes line_words = [] → collectHeights line_words = [] →
      font_size_est line_words = 10)
    ∧ 6 ≤ font_size_est line_words
    ∧ font_size_est line_words ≤ 12
    ∧ (collectSizes line_words ≠ [] → 12 ≤ median (collectSizes line_words) →
      font_size_est line_words = 12) := by
  refine ⟨?_, ?_, ?_, ?_, ?_, ?_⟩
  · intro hs
    simp only [font_size_est]
    rw [if_pos hs]
  · intro hs hh
    simp only [font_size_est]
    rw [if_neg (not_not_intro hs), if_pos hh]
  · intro hs hh
    simp only [font_size_est]
    rw [if_neg (not_not_intro hs), if_neg (not_not_intro hh)]
    norm_num
  · simp only [font_size_est]
    exact le_max_left _ _
  · simp only [font_size_est]
    exact max_le (by norm_num) (min_le_left _ _)
  · intro hs h12
    simp only [font_size_est]
    rw [if_pos hs, min_eq_left h12]
    norm_num

/-- Witness for C3: one token with no declared size and bounding-box height
`5.9`, whose clamped height `6` is the fallback median, so the estimate is
the clamp of that median (and evaluates to `6`). -/
theorem claim_C3_witness :
    collectSizes [Token.mk "A" 0 0 5 (59/10) none none] = []
    ∧ font_size_est [Token.mk "A" 0 0 5 (59/10) none none]
        = max 6 (min 12 (median (collectHeights [Token.mk "A" 0 0 5 (59/10) none none]))) :=
  ⟨rfl, (claim_C3 [Token.mk "A" 0 0 5 (59/10) none none]).2.1 rfl
    (by norm_num [collectHeights])⟩

/-- **C4.** Between adjacent `x0`-sorted tokens, the separator is computed
from the gap `next.x0 - (running max x1)`: a positive gap inserts exactly
`max(min_spaces, round(gap / max(0.5, space_unit_pts)))` spaces, a
nonpositive gap inserts one space exactly when `gap > -0.3 * space_unit_pts`
and nothing otherwise; with `space_unit_pts = 3` and `min_spaces = 1`, gaps
of `9`, `0.5`, `-0.5` and `-2` yield `3`, `1`, `1` and `0` spaces. -/
theorem claim_C4 (space_unit_pts : ℚ) (min_spaces : ℕ) (gap : ℚ)
    (acc : String) (prev_x1 last_x1 : ℚ) (w : Token) (ws : List Token) :
    (gap > 0 → gapSep space_unit_pts min_spaces gap
      = String.mk (List.replicate
          (max min_spaces (pyRound (gap / max (1/2) space_unit_pts)).toNat) ' '))
    ∧ (gap ≤ 0 → gap > -space_unit_pts * (3/10) →
      gapSep space_unit_pts min_spaces gap = " ")
    ∧ (gap ≤ 0 → ¬ gap > -space_unit_pts * (3/10) →
      gapSep space_unit_pts min_spaces gap = "")
    ∧ assembleGo space_unit_pts min_spaces acc prev_x1 last_x1 (w :: ws)
        = assembleGo space_unit_pts min_spaces
            (acc ++ gapSep space_unit_pts min_spaces (w.x0 - prev_x1) ++ w.text)
            (max prev_x1 w.x1) (max last_x1 w.x1) ws
    ∧ (build_line_text [Token.mk "A" 0 0 1 10 none none,
          Token.mk "B" 10 0 12 10 none none] 3 1 false).map (fun r => r.1)
        = some "A   B"
    ∧ (build_line_text [Token.mk "A" 0 0 1 10 none none,
          Token.mk "B" (3/2) 0 3 10 none none] 3 1 false).map (fun r => r.1)
        = some "A B"
    ∧ (build_line_text [Token.mk "A" 0 0 5 10 none none,
          Token.mk "B" (9/2) 0 6 10 none none] 3 1 false).map (fun r => r.1)
        = some "A B"
    ∧ (build_line_text [Token.mk "A" 0 0 5 10 none none,
          Token.mk "B" 3 0 6 10 none none] 3 1 false).map (fun r => r.1)
        = some "AB" := by
  refine ⟨?_, ?_, ?_, rfl, ?_, ?_, ?_, ?_⟩
  · intro hg
    simp only [gapSep]
    rw [if_pos hg]
    have : (max (min_spaces : ℤ) (pyRound (gap / max (1/2) space_unit_pts))).toNat
        = max min_spaces (pyRound (gap / max (1/2) space_unit_pts)).toNat := by
      omega
    rw [n_spaces_for, this]
  · intro hg hsh
    simp only [gapSep]
    rw [if_neg (not_lt.mpr hg), if_pos hsh]
  · intro hg hsh
    simp only [gapSep]
    rw [if_neg (not_lt.mpr hg), if_neg hsh]
  · norm_num [build_line_text, sortBy, insertBy, byX0, font_size_est, collectSizes,
      collectHeights, median, top_median, line_font_name, collectFontnames,
      fontTallyStep, assembleGo, gapSep, n_spaces_for, pyRound, modeFont, tallyAdd]
    rfl
  · norm_num [build_line_text, sortBy, insertBy, byX0, font_size_est, collectSizes,
      collectHeights, median, top_median, line_font_name, collectFontnames,
      fontTallyStep, assembleGo, gapSep, n_spaces_for, pyRound, modeFont, tallyAdd]
    rfl
  · norm_num [build_line_text, sortBy, insertBy, byX0, font_size_est, collectSizes,
      collectHeights, median, top_median, line_font_name, collectFontnames,
      fontTallyStep, assembleGo, gapSep, n_spaces_for, pyRound, modeFont, tallyAdd]
    rfl
  · norm_num [build_line_text, sortBy, insertBy, byX0, font_size_est, collectSizes,
      collectHeights, median, top_median, line_font_name, collectFontnames,
      fontTallyStep, assembleGo, gapSep, n_spaces_for, pyRound, modeFont, tallyAdd]
    rfl

/-- Witness for C4: the three separator rules instantiated at
`space_unit_pts = 3`, `min_spaces = 1` and gaps `9`, `-1/2` and `-2`. -/
theorem claim_C4_witness :
    gapSep 3 1 9 = String.mk (List.replicate
        (max 1 (pyRound (9 / max (1/2) 3)).toNat) ' ')
    ∧ gapSep 3 1 (-(1/2)) = " "
    ∧ gapSep 3 1 (-2) = "" :=
  ⟨(claim_C4 3 1 9 "" 0 0 (Token.mk "" 0 0 0 0 none none) []).1 (by norm_num),
   (claim_C4 3 1 (-(1/2)) "" 0 0 (Token.mk "" 0 0 0 0 none none) []).2.1
     (by norm_num) (by norm_num),
   (claim_C4 3 1 (-2) "" 0 0 (Token.mk "" 0 0 0 0 none none) []).2.2.1
     (by norm_num) (by norm_num)⟩

/-- **C5.** The clusterer sorts by `(top, x0)` ascending and walks the
sorted tokens: a token joins the current cluster exactly when its top is
within `line_tol` of the running-mean centroid, joining moves the centroid
to the mean of the extended cluster, otherwise the cluster closes and a new
one opens; the empty input yields the empty output; and tops
`[10, 10.5, 11, 20]` at tolerance `2` cluster into `{10, 10.5, 11}` and
`{20}`. -/
theorem claim_C5 (line_tol : ℚ) (cur : List Token) (w : Token)
    (ws : List Token) (hne : cur ≠ []) :
    group_words_into_lines [] line_tol = []
    ∧ (|w.top - meanTops cur| ≤ line_tol →
      groupGo line_tol cur (meanTops cur) (w :: ws)
        = groupGo line_tol (cur ++ [w]) (meanTops (cur ++ [w])) ws)
    ∧ (¬ |w.top - meanTops cur| ≤ line_tol →
      groupGo line_tol cur (meanTops cur) (w :: ws)
        = cur :: groupGo line_tol [w] w.top ws)
    ∧ group_words_into_lines
        [Token.mk "c" 2 11 3 12 none none, Token.mk "d" 0 20 1 21 none none,
         Token.mk "a" 0 10 1 11 none none, Token.mk "b" 1 (21/2) 2 (23/2) none none] 2
      = [[Token.mk "a" 0 10 1 11 none none, Token.mk "b" 1 (21/2) 2 (23/2) none none,
          Token.mk "c" 2 11 3 12 none none],
         [Token.mk "d" 0 20 1 21 none none]] := by
  refine ⟨rfl, ?_, ?_, ?_⟩
  · intro h
    simp only [groupGo]
    rw [if_pos h, meanTops_update cur w hne]
  · intro h
    simp only [groupGo]
    rw [if_neg h]
  · norm_num [group_words_into_lines, sortBy, insertBy, topThenX0, groupGo, abs_le]

/-- Witness for C5: a one-token cluster at top `10` joined by a token at
top `10.5` (within tolerance `2`), and closed by a token at top `20`
(outside tolerance). -/
theorem claim_C5_witness :
    groupGo 2 [Token.mk "a" 0 10 1 11 none none]
        (meanTops [Token.mk "a" 0 10 1 11 none none])
        [Token.mk "b" 1 (21/2) 2 (23/2) none none]
      = groupGo 2 ([Token.mk "a" 0 10 1 11 none none]
            ++ [Token.mk "b" 1 (21/2) 2 (23/2) none none])
          (meanTops ([Token.mk "a" 0 10 1 11 none none]
            ++ [Token.mk "b" 1 (21/2) 2 (23/2) none none])) []
    ∧ groupGo 2 [Token.mk "a" 0 10 1 11 none none]
        (meanTops [Token.mk "a" 0 10 1 11 none none])
        [Token.mk "d" 0 20 1 21 none none]
      = [Token.mk "a" 0 10 1 11 none none]
          :: groupGo 2 [Token.mk "d" 0 20 1 21 none none] 20 [] :=
  ⟨(claim_C5 2 [Token.mk "a" 0 10 1 11 none none]
      (Token.mk "b" 1 (21/2) 2 (23/2) none none) [] (List.cons_ne_nil _ _)).2.1
      (by norm_num [meanTops, abs_le]),
   (claim_C5 2 [Token.mk "a" 0 10 1 11 none none]
      (Token.mk "d" 0 20 1 21 none none) [] (List.cons_ne_nil _ _)).2.2.1
      (by norm_num [meanTops])⟩

/-- The acceptance condition of the drawing loop, stated as the claim
states darkness, is equivalent to the source's `if`/`elif` chain guard. -/
theorem darkFill_iff_guard (fill : List ℚ) :
    ((fill.length ≥ 3 ∧ ∀ c ∈ fill.take 3, c < 1/10) ∨ (fill.length < 3 ∧ fill = [0]))
      ↔ darkFill fill := by
  unfold darkFill
  constructor
  · rintro (h | ⟨-, h⟩)
    · exact Or.inl h
    · exact Or.inr h
  · rintro (h | h)
    · exact Or.inl h
    · right
      refine ⟨?_, h⟩
      rw [h]
      norm_num

/-- **C6.** The detector emits exactly the rectangles of the Redact-typed
annotations followed by the rectangles of the dark-filled drawings (first
three channels `< 0.1`, or grayscale `0`) whose rectangle is present, wider
than `10` and taller than `5`; an empty page yields `[]`; duplicates are
kept (two identical dark drawings yield their rectangle twice). -/
theorem claim_C6 (p : FitzPage) (d : Drawing) :
    detect_redaction_boxes_page p
      = (p.annots.filter (fun a => a.typeCode = 12)).map Annot.rect
          ++ p.drawings.filterMap drawingBox
    ∧ (drawingBox d = match d.fill, d.rect with
        | some fill, some r => if darkFill fill ∧ sizeOk r then some r else none
        | some _, none => none
        | none, _ => none)
    ∧ detect_redaction_boxes_page (FitzPage.mk [] []) = []
    ∧ detect_redaction_boxes_page (FitzPage.mk []
        [Drawing.mk (some [0]) (some (Rect.mk 0 0 20 10)),
         Drawing.mk (some [0]) (some (Rect.mk 0 0 20 10))])
      = [Rect.mk 0 0 20 10, Rect.mk 0 0 20 10] := by
  refine ⟨detect_redaction_boxes_page_eq p, ?_, rfl, ?_⟩
  · rcases d with ⟨fill, rect⟩
    rcases fill with _ | fill
    · rfl
    · rcases rect with _ | r
      · simp only [drawingBox]
        split_ifs <;> rfl
      · simp only [drawingBox, darkFill_iff_guard]
        split_ifs with h1 h2 h3 h4 <;> first | rfl | tauto
  · norm_num [detect_redaction_boxes_page, detectStepDrawing, detectStepAnnot, sizeOk]

/-- **C7.** For a fixed word box the overlap ratio is non-decreasing as the
redaction box grows outward in every direction (proved with no restriction
on the word box); a word of positive extent in both axes — the spec's
well-formed rectangle of positive area — lying fully inside the box has
ratio exactly `1` and is classified covered at the default threshold `0.5`;
disjoint rectangles have ratio exactly `0` and the word is not classified
covered. -/
theorem claim_C7 (w b b' : Rect) :
    (b'.x0 ≤ b.x0 → b'.y0 ≤ b.y0 → b.x1 ≤ b'.x1 → b.y1 ≤ b'.y1 →
      overlap_ratio w b ≤ overlap_ratio w b')
    ∧ (w.x0 < w.x1 → w.y0 < w.y1 →
       b.x0 ≤ w.x0 → b.y0 ≤ w.y0 → w.x1 ≤ b.x1 → w.y1 ≤ b.y1 →
      overlap_ratio w b = 1 ∧ word_overlaps_box w b (1/2) = true)
    ∧ ((w.x1 ≤ b.x0 ∨ b.x1 ≤ w.x0 ∨ w.y1 ≤ b.y0 ∨ b.y1 ≤ w.y0) →
      overlap_ratio w b = 0 ∧ word_overlaps_box w b (1/2) = false) := by
  refine ⟨?_, ?_, ?_⟩
  · intro h1 h2 h3 h4
    exact overlap_ratio_mono w b b' h1 h2 h3 h4
  · intro hwx hwy h1 h2 h3 h4
    have hr := overlap_ratio_inside w b hwx hwy h1 h2 h3 h4
    refine ⟨hr, ?_⟩
    refine (word_overlaps_box_iff_ratio w b (1/2) (by norm_num)).mpr ?_
    rw [hr]
    norm_num
  · intro h
    exact overlap_ratio_disjoint w b (1/2) h

/-- Witness for C7: the unit word `(0,0,2,2)` against the containing box
`(0,0,10,10)`, its enlargement `(-1,-1,11,11)`, and the disjoint box
`(3,0,4,2)`. -/
theorem claim_C7_witness :
    overlap_ratio (Rect.mk 0 0 2 2) (Rect.mk 0 0 10 10)
      ≤ overlap_ratio (Rect.mk 0 0 2 2) (Rect.mk (-1) (-1) 11 11)
    ∧ (overlap_ratio (Rect.mk 0 0 2 2) (Rect.mk 0 0 10 10) = 1
      ∧ word_overlaps_box (Rect.mk 0 0 2 2) (Rect.mk 0 0 10 10) (1/2) = true)
    ∧ (overlap_ratio (Rect.mk 0 0 2 2) (Rect.mk 3 0 4 2) = 0
      ∧ word_overlaps_box (Rect.mk 0 0 2 2) (Rect.mk 3 0 4 2) (1/2) = false) :=
  ⟨(claim_C7 (Rect.mk 0 0 2 2) (Rect.mk 0 0 10 10) (Rect.mk (-1) (-1) 11 11)).1
      (by norm_num) (by norm_num) (by norm_num) (by norm_num),
   (claim_C7 (Rect.mk 0 0 2 2) (Rect.mk 0 0 10 10) (Rect.mk (-1) (-1) 11 11)).2.1
      (by norm_num) (by norm_num) (by norm_num) (by norm_num) (by norm_num) (by norm_num),
   (claim_C7 (Rect.mk 0 0 2 2) (Rect.mk 3 0 4 2) (Rect.mk 3 0 4 2)).2.2
      (by norm_num)⟩

/-! ### The mode of the font tally

`max(fontnames, key=fontnames.get)` picks a key of maximal count.  The
lemmas below connect the embedded tally to that reading: the tally maps
each declared name to its number of occurrences (`collectFontnames_count`),
its keys are distinct as a Python dict's are, and the name `modeGo` keeps
carries a maximal count — so the mode is a most frequently declared name,
and `line_font_name` maps exactly that name when matching is enabled. -/

/-- The count a tally holds for a name: its first entry with that key, `0`
when the key is absent. -/
def tallyLookup (f : String) : List (String × ℕ) → ℕ
  | [] => 0
  | (g, n) :: rest => if g = f then n else tallyLookup f rest

/-- The keys of a tally, in insertion order. -/
def tallyKeys (t : List (String × ℕ)) : List String :=
  t.map Prod.fst

/-- Occurrences of a name among the declared names of a line. -/
def countName (g : String) : List String → ℕ
  | [] => 0
  | x :: xs => if x = g then countName g xs + 1 else countName g xs

theorem tallyLookup_tallyAdd_same (f : String) :
    ∀ t : List (String × ℕ), tallyLookup f (tallyAdd f t) = tallyLookup f t + 1 := by
  intro t
  induction t with
  | nil => simp [tallyAdd, tallyLookup]
  | cons p rest ih =>
    obtain ⟨g, n⟩ := p
    by_cases h : g = f
    · subst h
      simp [tallyAdd, tallyLookup]
    · simp [tallyAdd, tallyLookup, h, ih]

theorem tallyLookup_tallyAdd_other (f g : String) (hgf : g ≠ f) :
    ∀ t : List (String × ℕ), tallyLookup g (tallyAdd f t) = tallyLookup g t := by
  intro t
  induction t with
  | nil => simp [tallyAdd, tallyLookup, hgf.symm]
  | cons p rest ih =>
    obtain ⟨k, n⟩ := p
    by_cases h : k = f
    · subst h
      simp [tallyAdd, tallyLookup, hgf.symm]
    · simp [tallyAdd, tallyLookup, h, ih]

theorem foldl_tally_count (lw : List Token) :
    ∀ (acc : List (String × ℕ)) (g : String),
      tallyLookup g (lw.foldl (fontTallyStep true) acc)
        = tallyLookup g acc + countName g (lw.filterMap Token.fontname) := by
  induction lw with
  | nil =>
    intro acc g
    simp [countName]
  | cons w rest ih =>
    intro acc g
    rw [List.foldl_cons]
    cases hw : w.fontname with
    | none =>
      have hstep : fontTallyStep true acc w = acc := by simp [fontTallyStep, hw]
      rw [hstep, ih, List.filterMap_cons, hw]
    | some f =>
      have hstep : fontTallyStep true acc w = tallyAdd f acc := by
        simp [fontTallyStep, hw]
      rw [hstep, ih, List.filterMap_cons, hw]
      by_cases hfg : f = g
      · subst hfg
        rw [tallyLookup_tallyAdd_same]
        simp [countName]
        omega
      · rw [tallyLookup_tallyAdd_other f g (Ne.symm hfg)]
        simp only [countName, if_neg hfg]

/-- The tally built by the line walk holds each name's occurrence count. -/
theorem collectFontnames_count (lw : List Token) (g : String) :
    tallyLookup g (collectFontnames true lw)
      = countName g (lw.filterMap Token.fontname) := by
  have h := foldl_tally_count lw [] g
  simpa [collectFontnames, tallyLookup] using h

theorem tallyKeys_tallyAdd (f : String) :
    ∀ t : List (String × ℕ), tallyKeys (tallyAdd f t)
      = if f ∈ tallyKeys t then tallyKeys t else tallyKeys t ++ [f] := by
  intro t
  induction t with
  | nil => simp [tallyAdd, tallyKeys]
  | cons p rest ih =>
    obtain ⟨g, n⟩ := p
    simp only [tallyKeys] at ih ⊢
    by_cases h : g = f
    · subst h
      simp [tallyAdd]
    · have hfg : ¬ f = g := fun hh => h hh.symm
      simp only [tallyAdd, if_neg h, List.map_cons, List.mem_cons, hfg, false_or]
      rw [ih]
      by_cases hm : f ∈ List.map Prod.fst rest
      · simp [hm]
      · simp [hm]

theorem tallyKeys_nodup_tallyAdd (f : String) (t : List (String × ℕ))
    (h : (tallyKeys t).Nodup) : (tallyKeys (tallyAdd f t)).Nodup := by
  rw [tallyKeys_tallyAdd]
  split_ifs with hm
  · exact h
  · rw [List.nodup_append]
    refine ⟨h, List.nodup_singleton f, ?_⟩
    intro a ha hb
    rw [List.mem_singleton] at hb
    subst hb
    exact hm ha

/-- The tally's keys are distinct, as a Python dict's keys are. -/
theorem collectFontnames_keys_nodup (lw : List Token) :
    (tallyKeys (collectFontnames true lw)).Nodup := by
  have hgen : ∀ (ws : List Token) (acc : List (String × ℕ)),
      (tallyKeys acc).Nodup →
      (tallyKeys (ws.foldl (fontTallyStep true) acc)).Nodup := by
    intro ws
    induction ws with
    | nil => intro acc h; exact h
    | cons w rest ih =>
      intro acc h
      rw [List.foldl_cons]
      refine ih _ ?_
      cases hw : w.fontname with
      | none =>
        have hstep : fontTallyStep true acc w = acc := by simp [fontTallyStep, hw]
        rw [hstep]
        exact h
      | some f =>
        have hstep : fontTallyStep true acc w = tallyAdd f acc := by
          simp [fontTallyStep, hw]
        rw [hstep]
        exact tallyKeys_nodup_tallyAdd f acc h
  exact hgen lw [] (by simp [tallyKeys])

theorem tallyLookup_eq_of_mem (f : String) (n : ℕ) :
    ∀ t : List (String × ℕ), (tallyKeys t).Nodup → (f, n) ∈ t →
      tallyLookup f t = n := by
  intro t
  induction t with
  | nil =>
    intro _ hmem
    cases hmem
  | cons p rest ih =>
    intro hnd hmem
    obtain ⟨g, m⟩ := p
    simp only [tallyKeys, List.map_cons, List.nodup_cons] at hnd
    obtain ⟨hg, hrest⟩ := hnd
    rcases List.mem_cons.mp hmem with heq | hmem2
    · injection heq with h1 h2
      subst h1
      subst h2
      simp [tallyLookup]
    · have hgf : g ≠ f := by
        intro hh
        exact hg (hh ▸ List.mem_map_of_mem Prod.fst hmem2)
      simp only [tallyLookup, if_neg hgf]
      exact ih hrest hmem2

theorem mem_of_tallyLookup (f : String) :
    ∀ t : List (String × ℕ), f ∈ tallyKeys t → (f, tallyLookup f t) ∈ t := by
  intro t
  induction t with
  | nil =>
    intro h
    simp [tallyKeys] at h
  | cons p rest ih =>
    intro h
    obtain ⟨g, m⟩ := p
    by_cases hgf : g = f
    · subst hgf
      simp [tallyLookup]
    · have hf : f ∈ tallyKeys rest := by
        simp only [tallyKeys, List.map_cons, List.mem_cons] at h
        rcases h with h1 | h2
        · exact absurd h1.symm hgf
        · exact h2
      simp only [tallyLookup, if_neg hgf]
      exact List.mem_cons_of_mem _ (ih hf)

theorem tallyLookup_eq_zero (f : String) :
    ∀ t : List (String × ℕ), f ∉ tallyKeys t → tallyLookup f t = 0 := by
  intro t
  induction t with
  | nil => intro _; rfl
  | cons p rest ih =>
    intro h
    obtain ⟨g, m⟩ := p
    simp only [tallyKeys, List.map_cons, List.mem_cons] at h
    push_neg at h
    obtain ⟨h1, h2⟩ := h
    simp only [tallyLookup, if_neg (Ne.symm h1)]
    exact ih h2

/-- `modeGo` (the walk of `max(..., key=fontnames.get)`) returns either its
seed, whose count then bounds every entry, or an entry of the list whose
count bounds the seed's and every entry's count. -/
theorem modeGo_max :
    ∀ (rest : List (String × ℕ)) (best : String) (bn : ℕ),
      (modeGo best bn rest = best ∧ ∀ p ∈ rest, p.2 ≤ bn)
      ∨ (∃ n, (modeGo best bn rest, n) ∈ rest ∧ bn ≤ n ∧ ∀ p ∈ rest, p.2 ≤ n) := by
  intro rest
  induction rest with
  | nil =>
    intro best bn
    left
    exact ⟨rfl, by simp⟩
  | cons p tail ih =>
    intro best bn
    obtain ⟨g, m⟩ := p
    simp only [modeGo]
    by_cases h : m > bn
    · rw [if_pos h]
      rcases ih g m with ⟨heq, hle⟩ | ⟨n, hmem, hbn, hle⟩
      · right
        refine ⟨m, ?_, le_of_lt h, ?_⟩
        · rw [heq]
          exact List.mem_cons_self _ _
        · intro q hq
          rcases List.mem_cons.mp hq with rfl | hq2
          · exact le_refl m
          · exact hle q hq2
      · right
        refine ⟨n, List.mem_cons_of_mem _ hmem, le_trans (le_of_lt h) hbn, ?_⟩
        intro q hq
        rcases List.mem_cons.mp hq with rfl | hq2
        · exact hbn
        · exact hle q hq2
    · rw [if_neg h]
      push_neg at h
      rcases ih best bn with ⟨heq, hle⟩ | ⟨n, hmem, hbn, hle⟩
      · left
        refine ⟨heq, ?_⟩
        intro q hq
        rcases List.mem_cons.mp hq with rfl | hq2
        · exact h
        · exact hle q hq2
      · right
        refine ⟨n, List.mem_cons_of_mem _ hmem, hbn, ?_⟩
        intro q hq
        rcases List.mem_cons.mp hq with rfl | hq2
        · exact le_trans h hbn
        · exact hle q hq2

/-- The mode is an entry of the tally whose count bounds every count. -/
theorem modeFont_max (t : List (String × ℕ)) (f : String)
    (h : modeFont t = some f) :
    ∃ n, (f, n) ∈ t ∧ ∀ p ∈ t, p.2 ≤ n := by
  cases t with
  | nil => simp [modeFont] at h
  | cons p rest =>
    obtain ⟨f0, n0⟩ := p
    simp only [modeFont] at h
    injection h with h2
    subst h2
    rcases modeGo_max rest f0 n0 with ⟨heq, hle⟩ | ⟨n, hmem, hbn, hle⟩
    · refine ⟨n0, ?_, ?_⟩
      · rw [heq]
        exact List.mem_cons_self _ _
      · intro q hq
        rcases List.mem_cons.mp hq with rfl | hq2
        · exact le_refl n0
        · exact hle q hq2
    · refine ⟨n, List.mem_cons_of_mem _ hmem, ?_⟩
      intro q hq
      rcases List.mem_cons.mp hq with rfl | hq2
      · exact hbn
      · exact hle q hq2

/-- The mode of a line's tally is a most frequently declared name: every
declared name's occurrence count is bounded by the mode's. -/
theorem mode_most_frequent (lw : List Token) (f : String)
    (h : modeFont (collectFontnames true lw) = some f) (g : String) :
    countName g (lw.filterMap Token.fontname)
      ≤ countName f (lw.filterMap Token.fontname) := by
  obtain ⟨n, hmem, hmax⟩ := modeFont_max _ f h
  have hnd := collectFontnames_keys_nodup lw
  have hf : tallyLookup f (collectFontnames true lw) = n :=
    tallyLookup_eq_of_mem f n _ hnd hmem
  rw [← collectFontnames_count lw g, ← collectFontnames_count lw f, hf]
  by_cases hg : g ∈ tallyKeys (collectFontnames true lw)
  · exact hmax _ (mem_of_tallyLookup g _ hg)
  · rw [tallyLookup_eq_zero g _ hg]
    exact Nat.zero_le n

theorem countName_pos (x : String) :
    ∀ l : List String, x ∈ l → 1 ≤ countName x l := by
  intro l
  induction l with
  | nil =>
    intro h
    cases h
  | cons y ys ih =>
    intro h
    by_cases hxy : y = x
    · simp [countName, hxy]
    · simp only [countName, if_neg hxy]
      rcases List.mem_cons.mp h with h1 | h2
      · exact absurd h1.symm hxy
      · exact ih h2

/-- As soon as some token declares a font name, the tally is non-empty and
a mode exists. -/
theorem modeFont_some_of_declared (lw : List Token)
    (h : lw.filterMap Token.fontname ≠ []) :
    ∃ m, modeFont (collectFontnames true lw) = some m := by
  have hne : collectFontnames true lw ≠ [] := by
    intro he
    rcases List.exists_mem_of_ne_nil _ h with ⟨x, hx⟩
    have h1 := collectFontnames_count lw x
    rw [he] at h1
    simp only [tallyLookup] at h1
    have h2 := countName_pos x _ hx
    omega
  cases hc : collectFontnames true lw with
  | nil => exact absurd hc hne
  | cons p rest =>
    obtain ⟨f0, n0⟩ := p
    exact ⟨modeGo f0 n0 rest, rfl⟩

/-- With font matching enabled and a non-empty tally, the line's font name
is the mode of the tally, lower-cased and mapped. -/
theorem line_font_name_mode (lw : List Token) (f : String)
    (h : modeFont (collectFontnames true lw) = some f) :
    line_font_name true lw = map_font_to_pymudf (lowerString f) := by
  have hne : collectFontnames true lw ≠ [] := by
    intro he
    rw [he] at h
    simp [modeFont] at h
  simp only [line_font_name]
  rw [if_pos]
  · rw [h]
  · exact ⟨hne, trivial⟩

/-- A small line with font matching enabled: `"Times-Bold"` declared twice,
`"Courier"` once. -/
def mixedFontLine : List Token :=
  [Token.mk "x" 0 0 1 1 none (some "Times-Bold"),
   Token.mk "y" 0 0 1 1 none (some "Courier"),
   Token.mk "z" 0 0 1 1 none (some "Times-Bold")]

/-- **C8, counterexample.** The claim states that the style keywords
`oblique` and `italic` are treated interchangeably within each family.
They are not: an italic-styled helvetica name maps to the plain `helvetica`
identifier rather than the oblique variant that an oblique-styled name
gets, and an oblique-styled times name maps to `times-roman` rather than
the italic variant that an italic-styled name gets. -/
theorem claim_C8_counterexample :
    map_font_to_pymudf "Helvetica-Italic" = "helvetica"
    ∧ map_font_to_pymudf "Helvetica-Oblique" = "helvetica-oblique"
    ∧ map_font_to_pymudf "Helvetica-Italic" ≠ map_font_to_pymudf "Helvetica-Oblique"
    ∧ map_font_to_pymudf "Times-Oblique" = "times-roman"
    ∧ map_font_to_pymudf "Times-Italic" = "times-italic"
    ∧ map_font_to_pymudf "Times-Oblique" ≠ map_font_to_pymudf "Times-Italic" := by
  refine ⟨by decide, by decide, by decide, by decide, by decide, by decide⟩

/-- **C8, amended.** The most frequent declared font name of a line (when
font matching is enabled and any name was declared) is mapped by
case-insensitive substring match on the family keywords
helvetica/times/courier/symbol/zapf-dingbats and the style keywords bold
and oblique *or* italic — where the helvetica and courier families respond
to `oblique` only and the times family to `italic` only — to the
corresponding standard identifier; a name matching no family keyword, a
line with no font metadata, and disabled font matching all yield the plain
sans-serif identifier `"helvetica"`.  The enabled main path is settled by
three conjuncts: whenever the tally has a mode, the line's font name is
that mode lower-cased and mapped; the mode's declaration count bounds
every name's declaration count (it is a most frequently declared name);
and a mode exists as soon as any token declares a name.  A concrete
enabled line (`"Times-Bold"` twice, `"Courier"` once) yields
`"times-bold"`. -/
theorem claim_C8 (font : String) (match_font : Bool) (line_words : List Token)
    (f g : String) :
    (strContains (lowerString font) "helvetica" = false →
     strContains (lowerString font) "times" = false →
     strContains (lowerString font) "courier" = false →
     strContains (lowerString font) "symbol" = false →
     strContains (lowerString font) "zapf" = false →
     strContains (lowerString font) "dingbat" = false →
      map_font_to_pymudf font = "helvetica")
    ∧ (modeFont (collectFontnames true line_words) = some f →
      line_font_name true line_words = map_font_to_pymudf (lowerString f))
    ∧ (modeFont (collectFontnames true line_words) = some f →
      countName g (line_words.filterMap Token.fontname)
        ≤ countName f (line_words.filterMap Token.fontname))
    ∧ (line_words.filterMap Token.fontname ≠ [] →
      ∃ m, modeFont (collectFontnames true line_words) = some m)
    ∧ (collectFontnames match_font line_words = [] →
      line_font_name match_font line_words = "helvetica")
    ∧ (match_font = false → line_font_name match_font line_words = "helvetica")
    ∧ line_font_name true mixedFontLine = "times-bold"
    ∧ map_font_to_pymudf "Helvetica" = "helvetica"
    ∧ map_font_to_pymudf "Helvetica-Bold" = "helvetica-bold"
    ∧ map_font_to_pymudf "Helvetica-Oblique" = "helvetica-oblique"
    ∧ map_font_to_pymudf "Helvetica-BoldOblique" = "helvetica-boldoblique"
    ∧ map_font_to_pymudf "Times-Roman" = "times-roman"
    ∧ map_font_to_pymudf "Times-Bold" = "times-bold"
    ∧ map_font_to_pymudf "Times-Italic" = "times-italic"
    ∧ map_font_to_pymudf "Times-BoldItalic" = "times-bolditalic"
    ∧ map_font_to_pymudf "Courier" = "courier"
    ∧ map_font_to_pymudf "Courier-Bold" = "courier-bold"
    ∧ map_font_to_pymudf "Courier-Oblique" = "courier-oblique"
    ∧ map_font_to_pymudf "Courier-BoldOblique" = "courier-boldoblique"
    ∧ map_font_to_pymudf "Symbol" = "symbol"
    ∧ map_font_to_pymudf "ZapfDingbats" = "zapfdingbats"
    ∧ map_font_to_pymudf "Garamond" = "helvetica" := by
  refine ⟨?_, line_font_name_mode line_words f,
    fun h => mode_most_frequent line_words f h g,
    modeFont_some_of_declared line_words, ?_, ?_, ?_⟩
  · intro h1 h2 h3 h4 h5 h6
    simp only [map_font_to_pymudf]
    simp [h1, h2, h3, h4, h5, h6]
  · intro h
    simp [line_font_name, h]
  · intro h
    simp [line_font_name, h]
  · decide

/-- Witness for C8: a font name matching no family keyword maps to
`"helvetica"`; a line with no tally yields `"helvetica"`; and on the
enabled line with `"Times-Bold"` twice and `"Courier"` once, the mode
`"Times-Bold"` is what gets mapped, its count bounds `"Courier"`'s, and a
mode exists. -/
theorem claim_C8_witness :
    map_font_to_pymudf "Arial" = "helvetica"
    ∧ line_font_name false [Token.mk "x" 0 0 1 1 none (some "Arial")] = "helvetica"
    ∧ line_font_name true mixedFontLine
        = map_font_to_pymudf (lowerString "Times-Bold")
    ∧ countName "Courier" (mixedFontLine.filterMap Token.fontname)
        ≤ countName "Times-Bold" (mixedFontLine.filterMap Token.fontname)
    ∧ ∃ m, modeFont (collectFontnames true mixedFontLine) = some m :=
  ⟨(claim_C8 "Arial" false [] "" "").1 (by decide) (by decide) (by decide)
      (by decide) (by decide) (by decide),
   (claim_C8 "Arial" false [Token.mk "x" 0 0 1 1 none (some "Arial")] "" "").2.2.2.2.2.1 rfl,
   (claim_C8 "Arial" true mixedFontLine "Times-Bold" "Courier").2.1 (by decide),
   (claim_C8 "Arial" true mixedFontLine "Times-Bold" "Courier").2.2.1 (by decide),
   (claim_C8 "Arial" true mixedFontLine "Times-Bold" "Courier").2.2.2.1 (by decide)⟩

/-- The counter invariant: covered counts never exceed the totals. -/
def accInv (a : StatsAcc) : Prop :=
  a.words_under ≤ a.total_words ∧ a.chars_under ≤ a.total_chars

theorem statStep_inv (page_boxes : List Rect) (acc : StatsAcc) (w : Token)
    (h : accInv acc) : accInv (statStep page_boxes acc w) := by
  obtain ⟨h1, h2⟩ := h
  unfold statStep
  split_ifs
  · exact ⟨h1, h2⟩
  · exact ⟨Nat.add_le_add h1 (le_refl 1), Nat.add_le_add h2 (le_refl _)⟩
  · exact ⟨le_trans h1 (Nat.le_succ _), le_trans h2 (Nat.le_add_right _ _)⟩

theorem foldl_statStep_inv (page_boxes : List Rect) (ws : List Token) :
    ∀ acc : StatsAcc, accInv acc → accInv (ws.foldl (statStep page_boxes) acc) := by
  induction ws with
  | nil => intro acc h; exact h
  | cons w ws ih =>
    intro acc h
    rw [List.foldl_cons]
    exact ih _ (statStep_inv page_boxes acc w h)

theorem docFold_inv (pages : List PlumberPage) :
    ∀ (boxes : List (List Rect)) (acc : StatsAcc), accInv acc →
      accInv (docFold boxes acc pages) := by
  induction pages with
  | nil => intro boxes acc h; cases boxes <;> exact h
  | cons p ps ih =>
    intro boxes acc h
    cases boxes with
    | nil => exact ih [] _ (foldl_statStep_inv [] p.words acc h)
    | cons bs rest => exact ih rest _ (foldl_statStep_inv bs p.words acc h)

/-- **C9.** The aggregated statistics satisfy the invariants
`words_under_redactions ≤ total_words_extracted`,
`chars_under_redactions ≤ total_chars_extracted` (both counters are
naturals, hence also nonnegative), and
`0 ≤ recovery_rate ≤ 100`, for every document. -/
theorem claim_C9 (doc : Doc) :
    (compute_redaction_stats doc).words_under_redactions
      ≤ (compute_redaction_stats doc).total_words_extracted
    ∧ (compute_redaction_stats doc).chars_under_redactions
      ≤ (compute_redaction_stats doc).total_chars_extracted
    ∧ 0 ≤ (compute_redaction_stats doc).recovery_rate
    ∧ (compute_redaction_stats doc).recovery_rate ≤ 100 := by
  have hInv : accInv (docFold (detect_redaction_boxes doc.fitzPages)
      (StatsAcc.mk 0 0 0 0) doc.plumberPages) :=
    docFold_inv doc.plumberPages (detect_redaction_boxes doc.fitzPages)
      (StatsAcc.mk 0 0 0 0) ⟨le_refl 0, le_refl 0⟩
  obtain ⟨h1, h2⟩ := hInv
  simp only [compute_redaction_stats]
  refine ⟨h1, h2, ?_, ?_⟩
  · split_ifs with h
    · positivity
    · exact le_refl 0
  · split_ifs with h
    · set a := docFold (detect_redaction_boxes doc.fitzPages)
        (StatsAcc.mk 0 0 0 0) doc.plumberPages with ha
      have htc : (0 : ℚ) < (a.total_chars : ℚ) := by exact_mod_cast h
      have hle : ((a.chars_under : ℚ) / (a.total_chars : ℚ)) ≤ 1 := by
        rw [div_le_one htc]
        exact_mod_cast h2
      calc (a.chars_under : ℚ) / (a.total_chars : ℚ) * 100
          ≤ 1 * 100 := by
            apply mul_le_mul_of_nonneg_right hle
            norm_num
        _ = 100 := by norm_num
    · norm_num

/-- **C10.** A word whose text is empty or all-whitespace is skipped by the
statistics loop: it leaves the step's counters unchanged, and removing it
from a page's word list (anywhere in the list) leaves the whole page fold
unchanged — it contributes to none of the four counters, wherever it sits
relative to the redaction boxes. -/
theorem claim_C10 (page_boxes : List Rect) (acc : StatsAcc) (w : Token)
    (ws1 ws2 : List Token) (h : isBlankText w.text = true) :
    statStep page_boxes acc w = acc
    ∧ pageFold page_boxes acc (PlumberPage.mk (ws1 ++ w :: ws2))
        = pageFold page_boxes acc (PlumberPage.mk (ws1 ++ ws2)) := by
  refine ⟨statStep_blank page_boxes acc w h, ?_⟩
  unfold pageFold
  simp only
  rw [List.foldl_append, List.foldl_append, List.foldl_cons,
    statStep_blank page_boxes _ w h]

/-- Witness for C10: the all-whitespace word `"  "` between two real words
is invisible to the counters. -/
theorem claim_C10_witness :
    statStep [Rect.mk 0 0 10 10] (StatsAcc.mk 0 0 0 0) (Token.mk "  " 0 0 1 1 none none)
      = StatsAcc.mk 0 0 0 0
    ∧ pageFold [Rect.mk 0 0 10 10] (StatsAcc.mk 0 0 0 0)
        (PlumberPage.mk ([Token.mk "ab" 0 0 1 1 none none]
          ++ Token.mk "  " 0 0 1 1 none none :: [Token.mk "cd" 5 5 6 6 none none]))
      = pageFold [Rect.mk 0 0 10 10] (StatsAcc.mk 0 0 0 0)
          (PlumberPage.mk ([Token.mk "ab" 0 0 1 1 none none]
            ++ [Token.mk "cd" 5 5 6 6 none none])) :=
  claim_C10 [Rect.mk 0 0 10 10] (StatsAcc.mk 0 0 0 0)
    (Token.mk "  " 0 0 1 1 none none)
    [Token.mk "ab" 0 0 1 1 none none] [Token.mk "cd" 5 5 6 6 none none]
    (by decide)

end Unredact
